import Mathlib

/-!
Verification of the spark-cli workspace tool: the dependency resolver
(`getDepsForRun`), the link reconciliation (`autoLinkDeps`), the sync engine
(`syncRepoFull`, `getTargetBranch`, `fileHash`) and the git remote-URL helpers
(`BuildRemoteURL`, `RepoNameFromRemote`), shallowly embedded from the Go source.
External processes (git, npm) are modelled by oracle structures whose fields
record the observations and call outcomes the Go code branches on.
-/

namespace SparkCLI

/-- Modelled from the spec: the `workspace.RepoDef` record (the workspace
package is not part of the sources). Per spec §3 a RepoDef carries a
filesystem path, an optional default-branch override and the ordered list of
declared dependency names; the name is the key of the workspace map. -/
structure RepoDef where
  path : String := ""
  defaultBranch : String := ""
  dependencies : List String := []
deriving Repr, DecidableEq

/-- Modelled from the spec: the `workspace.Workspace` record, a mapping from
repo name to RepoDef (keys unique) plus workspace-wide defaults (spec §3).
Only the fields the verified code reads are embedded. -/
structure Workspace where
  repos : List (String × RepoDef) := []
  defaultBranch : String := ""
deriving Repr, DecidableEq

/-- Embedding of the `ws.Repos[n]` map lookup (present/absent, as the Go
code's `repo, ok := ws.Repos[n]`). -/
def wsLookup (ws : Workspace) (n : String) : Option RepoDef :=
  (ws.repos.find? (fun p => p.1 == n)).map (fun p => p.2)

/-- The hardcoded `apiToModel` table from the run command source. -/
def apiToModel : List (String × String) :=
  [("AppAPI", "AppModel"), ("BusinessAPI", "BusinessModel")]

/-- The `depMapping` struct of the run command source. -/
structure DepMapping where
  api : String := ""
  pkg : String := ""
deriving Repr, DecidableEq

/-- The hardcoded `modelToAPI` table from the run command source. -/
def modelToAPI : List (String × DepMapping) :=
  [("AppModel", ⟨"AppAPI", "@spark-rewards/sra-sdk"⟩),
   ("BusinessModel", ⟨"BusinessAPI", "@spark-rewards/srw-sdk"⟩)]

/-- Association-list lookup, the embedding of a Go map read `m[k]`. -/
def lookupStr (m : List (String × String)) (k : String) : Option String :=
  (m.find? (fun p => p.1 == k)).map (fun p => p.2)

/-- Association-list lookup into `modelToAPI`. -/
def lookupDM (m : List (String × DepMapping)) (k : String) : Option DepMapping :=
  (m.find? (fun p => p.1 == k)).map (fun p => p.2)

/-- The mutable state of `getDepsForRun`'s closure `collect`: the `seen`
visited set and the accumulated `deps` slice. -/
structure CollectSt where
  seen : List String
  deps : List String
deriving Repr, DecidableEq

/-- The declared-dependency loop inside `collect`: for each declared
dependency that exists in the workspace, recurse (`step`) and append it if
not already present (`containsRun` guard). -/
def collectList (step : String → CollectSt → CollectSt) (ws : Workspace) :
    List String → CollectSt → CollectSt
  | [], st => st
  | d :: ds, st =>
    let st1 :=
      if (wsLookup ws d).isSome then
        let st2 := step d st
        if st2.deps.contains d then st2 else { st2 with deps := st2.deps ++ [d] }
      else st
    collectList step ws ds st1

/-- The implicit-edge step of `collect`: if the node has a model counterpart
(`apiToModel`) and that counterpart exists in the workspace, recurse into it
and then append it — with no `containsRun` guard, exactly as in the source. -/
def collectModel (ws : Workspace) (rec : String → CollectSt → CollectSt)
    (n : String) (st : CollectSt) : CollectSt :=
  match lookupStr apiToModel n with
  | some m =>
    if (wsLookup ws m).isSome then
      let stM := rec m st
      { stM with deps := stM.deps ++ [m] }
    else st
  | none => st

/-- The recursive closure `collect` of `getDepsForRun`, fuel-indexed: a node
already seen returns at once; otherwise it is marked seen, the implicit model
step runs, and the declared dependencies are processed in order. The fuel
makes the visited-set termination argument explicit (`collectFuel_stable`). -/
def collectFuel (ws : Workspace) : Nat → String → CollectSt → CollectSt
  | 0, _, st => st
  | Nat.succ f, n, st =>
    if st.seen.contains n then st
    else
      let stA : CollectSt := { st with seen := n :: st.seen }
      let stB := collectModel ws (collectFuel ws f) n stA
      match wsLookup ws n with
      | some repo => collectList (collectFuel ws f) ws repo.dependencies stB
      | none => stB

/-- Fuel that is always sufficient: every recursive call either hits the
`seen` guard or marks a fresh name drawn from the workspace keys or the two
`apiToModel` keys, so the recursion depth is bounded by `repos.length + 3`. -/
def resolveFuel (ws : Workspace) : Nat := ws.repos.length + 3

/-- Fuel-parameterized variant of `getDepsForRun` (used to state that the
recursion terminates: extra fuel never changes the result). -/
def getDepsForRunFuel (ws : Workspace) (fuel : Nat) (name : String) : List String :=
  let st := collectFuel ws fuel name ⟨[], []⟩
  st.deps.filter (fun d => d != name)

/-- The resolver `getDepsForRun(ws, name)`: run `collect(name)` from the
empty state and drop the target itself from the result (the trailing
`d != name` filter). -/
def getDepsForRun (ws : Workspace) (name : String) : List String :=
  getDepsForRunFuel ws (resolveFuel ws) name

/-- Names whose `collect` body can recurse: the workspace keys plus the two
`apiToModel` keys. Every recursive call of `collect` targets one of these. -/
def recursers (ws : Workspace) : List String :=
  ws.repos.map (fun p => p.1) ++ apiToModel.map (fun p => p.1)

/-- Number of recursing names not yet in the visited set: the termination
measure of `collect`. -/
def unseenCount (ws : Workspace) (st : CollectSt) : Nat :=
  ((recursers ws).filter (fun x => ! st.seen.contains x)).length

/-- Workspace exercising the unchecked implicit append: `Root` declares
`AppModel` before `AppAPI`, so `AppAPI`'s implicit edge appends `AppModel` a
second time without a `containsRun` check. -/
def c1ws : Workspace :=
  ⟨[("Root", ⟨"r", "", ["AppModel", "AppAPI"]⟩), ("AppModel", ⟨"m", "", []⟩),
    ("AppAPI", ⟨"a", "", []⟩)], ""⟩

/-- Workspace with a dependency cycle reachable from `Root`
(`Root → AppAPI → Root`) that also triggers the duplicate implicit append. -/
def c4ws : Workspace :=
  ⟨[("Root", ⟨"r", "", ["AppModel", "AppAPI"]⟩), ("AppModel", ⟨"m", "", []⟩),
    ("AppAPI", ⟨"a", "", ["Root"]⟩)], ""⟩

/-- Workspace of the spec's resolver scenario: `X` declares `[Y, Z]` and `Y`
declares `[Z]`; no repo has an implicit model/API counterpart. -/
def c5ws : Workspace :=
  ⟨[("X", ⟨"x", "", ["Y", "Z"]⟩), ("Y", ⟨"y", "", ["Z"]⟩), ("Z", ⟨"z", "", []⟩)], ""⟩

/-- Smithy build base path constant from the npm package source. -/
def SmithyBuildBase : String := "smithy/build/smithyprojections/smithy/source"

/-- Default codegen build path constant from the npm package source. -/
def SmithyBuildPath : String := SmithyBuildBase ++ "/typescript-ssdk-codegen"

/-- Modelled from the spec: `filepath.Join` on two segments. Joined paths are
only ever used as keys identifying a directory, so plain concatenation with a
separator is adequate. -/
def joinPath (a b : String) : String := a ++ "/" ++ b

/-- The `npm.BuildOutputDir` helper: path of the default Smithy SDK build
output inside a model repo. -/
def BuildOutputDir (modelDir : String) : String := joinPath modelDir SmithyBuildPath

/-- Modelled from the spec: the observable package/link state that the npm
operations act on (spec §6 PackageOps) — built-artifact presence per
directory (`IsBuilt`), link presence per directory and package (`IsLinked`,
symlink detection), and the success of the two link operations. -/
structure NpmWorld where
  isBuilt : String → Bool
  isLinked : String → String → Bool
  linkOk : String → Bool
  linkPackageOk : String → String → Bool

/-- Modelled from the spec: a successful `npm link <pkg>` run in a consumer
directory creates the consumption symlink that `IsLinked` detects (spec §4.2
step 3, §6 is-linked); no other observation changes. -/
def npmLinkPackageEffect (w : NpmWorld) (dir pkg : String) : NpmWorld :=
  { w with isLinked := fun d p => if d == dir && p == pkg then true else w.isLinked d p }

/-- Outcomes of one `autoLinkDeps` reconciliation, one per return path of the
source function. -/
inductive LinkOutcome where
  | notApplicable
  | skippedNoBuild
  | skippedAlreadyLinked
  | linked
  | failedLink
  | failedLinkPackage
deriving Repr, DecidableEq

/-- A link operation issued against npm. -/
inductive NpmOp where
  | link (dir : String)
  | linkPackage (dir pkg : String)
deriving Repr, DecidableEq

/-- Result of one `autoLinkDeps` call: its outcome, the world it leaves
behind, and the npm operations it issued. -/
structure LinkRun where
  outcome : LinkOutcome
  world : NpmWorld
  ops : List NpmOp

/-- The `autoLinkDeps` reconciliation from the run command source: for an API
repo whose model counterpart is in the workspace, decide from fresh
observations whether the consumer should be linked to the local model build,
and perform the `npm link` pair when needed. -/
def autoLinkDeps (wsPath : String) (ws : Workspace) (name : String) (w : NpmWorld) :
    LinkRun :=
  match lookupStr apiToModel name with
  | none => ⟨.notApplicable, w, []⟩
  | some modelName =>
    match wsLookup ws modelName with
    | none => ⟨.notApplicable, w, []⟩
    | some modelRepo =>
      let modelDir := joinPath wsPath modelRepo.path
      let apiDir := joinPath wsPath ((wsLookup ws name).getD {}).path
      let mapping := (lookupDM modelToAPI modelName).getD {}
      let buildDir := BuildOutputDir modelDir
      if !w.isBuilt modelDir then ⟨.skippedNoBuild, w, []⟩
      else if w.isLinked apiDir mapping.pkg then ⟨.skippedAlreadyLinked, w, []⟩
      else if !w.linkOk buildDir then ⟨.failedLink, w, [.link buildDir]⟩
      else if !w.linkPackageOk apiDir mapping.pkg then
        ⟨.failedLinkPackage, w, [.link buildDir, .linkPackage apiDir mapping.pkg]⟩
      else
        ⟨.linked, npmLinkPackageEffect w apiDir mapping.pkg,
          [.link buildDir, .linkPackage apiDir mapping.pkg]⟩

/-- Workspace for the C7 witness: the `AppModel`/`AppAPI` pair. -/
def c7ws : Workspace :=
  ⟨[("AppModel", ⟨"AppModel", "", []⟩), ("AppAPI", ⟨"AppAPI", "", []⟩)], ""⟩

/-- World for the C7 witness: model built, consumer not yet linked, both npm
operations succeed. -/
def c7world : NpmWorld :=
  ⟨fun _ => true, fun _ _ => false, fun _ => true, fun _ _ => true⟩

/-- Go strings.Contains for a single character, over strings embedded as
character lists. -/
def goContains : List Char → Char → Bool
  | [], _ => false
  | a :: as, c => if a = c then true else goContains as c

/-- Go strings.HasPrefix: length check plus equality of the leading slice. -/
def goHasPre (s pre : List Char) : Bool :=
  decide (pre.length ≤ s.length) && (s.take pre.length == pre)

/-- Go strings.HasSuffix: length check plus equality of the trailing slice. -/
def goHasSuf (s suf : List Char) : Bool :=
  decide (suf.length ≤ s.length) && (s.drop (s.length - suf.length) == suf)

/-- Go strings.TrimSuffix: drop the suffix when present, else unchanged. -/
def goTrimSuffix (s suf : List Char) : List Char :=
  if goHasSuf s suf then s.take (s.length - suf.length) else s

/-- Go strings.Split with a single-character separator: splits at every
occurrence, yielding one more piece than separator occurrences. -/
def goSplit (sep : Char) : List Char → List (List Char)
  | [] => [[]]
  | c :: cs =>
    if c = sep then [] :: goSplit sep cs
    else
      match goSplit sep cs with
      | [] => [[c]]
      | p :: ps => (c :: p) :: ps

/-- Characters after the last slash (the whole string when there is none):
the `path[i+1:]` step of filepath.Base and the slicing the claims compare
against. -/
def afterLastSlash : List Char → List Char
  | [] => []
  | c :: cs =>
    if goContains cs '/' then afterLastSlash cs
    else if c = '/' then cs else c :: cs

/-- The trailing-separator-stripping loop of Go filepath.Base. -/
def stripTrailingSlashes (s : List Char) : List Char :=
  (s.reverse.dropWhile (fun c => c = '/')).reverse

/-- Go path/filepath.Base on unix: "." for the empty path, otherwise strip
trailing slashes and keep what follows the last slash, or "/" when nothing
remains. -/
def goBase (s : List Char) : List Char :=
  if s = [] then ['.']
  else if afterLastSlash (stripTrailingSlashes s) = [] then ['/']
  else afterLastSlash (stripTrailingSlashes s)

/-- git.BuildRemoteURL: pass full remotes through, else wrap the org/repo
shorthand into an SSH URL. -/
def BuildRemoteURL (orgRepo : List Char) : List Char :=
  if goHasPre orgRepo "git@".toList || goHasPre orgRepo "https://".toList then orgRepo
  else "git@github.com:".toList ++ orgRepo ++ ".git".toList

/-- git.RepoNameFromRemote: the org/repo form takes the last slash-separated
piece; anything else takes the path base with one ".git" suffix trimmed. -/
def RepoNameFromRemote (remote : List Char) : List Char :=
  if !goContains remote ':' && goContains remote '/' then
    (goSplit '/' remote).getLastD []
  else
    goTrimSuffix (goBase remote) ".git".toList

/-- Modelled from the spec: the observations behind git default-branch
detection (spec §6 RepoOps) — the trimmed output of
`git symbolic-ref refs/remotes/origin/HEAD` when the command succeeds, and
which `origin/<branch>` refs `git rev-parse --verify` accepts. -/
structure DefaultBranchEnv where
  symbolicRef : Option String
  branchVerifies : String → Bool

/-- git.GetDefaultBranch: prefer the last path component of the origin/HEAD
symbolic ref; else probe origin/main then origin/prod; else "main". -/
def GetDefaultBranch (g : DefaultBranchEnv) : String :=
  match g.symbolicRef with
  | some ref =>
    if (goSplit '/' ref.toList).length > 0 then
      String.mk ((goSplit '/' ref.toList).getLastD [])
    else if g.branchVerifies "main" then "main"
    else if g.branchVerifies "prod" then "prod"
    else "main"
  | none =>
    if g.branchVerifies "main" then "main"
    else if g.branchVerifies "prod" then "prod"
    else "main"

/-- getTargetBranch from the sync command source: the per-run --branch
override, else the repo default, else the workspace default, else git
default-branch detection. -/
def getTargetBranch (syncBranch : String) (repo : Option RepoDef) (wsDefault : String)
    (g : DefaultBranchEnv) : String :=
  if syncBranch ≠ "" then syncBranch
  else
    match repo with
    | some r =>
      if r.defaultBranch ≠ "" then r.defaultBranch
      else if wsDefault ≠ "" then wsDefault
      else GetDefaultBranch g
    | none =>
      if wsDefault ≠ "" then wsDefault
      else GetDefaultBranch g

/-- The per-repository sync record (`repoSyncResult` in the source). -/
structure repoSyncResult where
  name : String
  branch : String
  status : String
  message : String
  ahead : Nat
  behind : Nat
  dirty : Bool
  dirtyStatus : String
  lockfileChanged : Bool
deriving Repr, DecidableEq

/-- Working-tree mutations issued during one `syncRepoFull` run. -/
inductive GitEvent where
  | rebase (branch upstream : String)
  | rebaseAbort
  | checkout (branch : String) (ok : Bool)
  | pull
deriving Repr, DecidableEq

/-- Modelled from the spec: the git observations and call outcomes that
`syncRepoFull` branches on (spec §6 RepoOps). `aheadBehindPre` is the
ahead/behind oracle before the rebase phase and `aheadBehindPost` the one
after it; `rebaseOk b u` says whether rebasing the checked-out branch `b`
onto `u` succeeds; `checkoutOk` whether checking a branch out succeeds;
`lockStatBefore`/`lockStatAfter` are the lockfile stat results (size and
mtime) around the phase. -/
structure GitWorld where
  currentBranch : String
  defEnv : DefaultBranchEnv
  aheadBehindPre : String → String → Nat × Nat
  aheadBehindPost : String → String → Nat × Nat
  isDirty : Bool
  statusShortColor : Option String
  statusPlain : String
  pullOk : Bool
  pullErr : String
  lockStatBefore : Option (Int × Int)
  lockStatAfter : Option (Int × Int)
  localBranches : List String
  rebaseOk : String → String → Bool
  checkoutOk : String → Bool

/-- fileHash from the sync command source: "" when the stat fails, else the
"size-mtime" fingerprint string. -/
def fileHash (stat : Option (Int × Int)) : String :=
  match stat with
  | none => ""
  | some st => toString st.1 ++ "-" ++ toString st.2

/-- Go strings.Join with the ", " separator, as used for the failed-branch
message. -/
def joinComma : List String → String
  | [] => ""
  | [x] => x
  | x :: xs => x ++ ", " ++ joinComma xs

/-- The secondary-branch loop of `syncRepoFull`: skip the current and target
branches; check each other branch out (a failed checkout just moves on),
rebase it onto the upstream, aborting the rebase and recording the branch as
failed when it conflicts. Returns the events, the rebased and failed branch
lists, and the branch left checked out. -/
def rebaseOthersLoop (g : GitWorld) (cur tgt upstream : String) :
    List String → String → List GitEvent × List String × List String × String
  | [], co => ([], [], [], co)
  | b :: bs, co =>
    if b = cur || b = tgt then rebaseOthersLoop g cur tgt upstream bs co
    else if !g.checkoutOk b then
      let r := rebaseOthersLoop g cur tgt upstream bs co
      (GitEvent.checkout b false :: r.1, r.2.1, r.2.2.1, r.2.2.2)
    else if g.rebaseOk b upstream then
      let r := rebaseOthersLoop g cur tgt upstream bs b
      (GitEvent.checkout b true :: GitEvent.rebase b upstream :: r.1,
        b :: r.2.1, r.2.2.1, r.2.2.2)
    else
      let r := rebaseOthersLoop g cur tgt upstream bs b
      (GitEvent.checkout b true :: GitEvent.rebase b upstream :: GitEvent.rebaseAbort :: r.1,
        r.2.1, b :: r.2.2.1, r.2.2.2)

/-- The summary-message composition of `syncRepoFull` after a successful
rebase phase: the count of extra rebased branches, then the count and names
of the failed ones, comma-separated when both parts are present. -/
def syncMessage (rebasedOthers failedOthers : List String) : String :=
  if rebasedOthers.length > 0 then
    if failedOthers.length > 0 then
      ("+" ++ toString rebasedOthers.length ++ " branches rebased") ++ ", " ++
        (toString failedOthers.length ++ " branch rebase(s) failed: " ++
          joinComma failedOthers)
    else "+" ++ toString rebasedOthers.length ++ " branches rebased"
  else
    if failedOthers.length > 0 then
      toString failedOthers.length ++ " branch rebase(s) failed: " ++ joinComma failedOthers
    else ""

/-- Result of one `syncRepoFull` run: the sync record, the trace of
working-tree mutations, and the branch left checked out at the end. -/
structure SyncOutcome where
  result : repoSyncResult
  events : List GitEvent
  finalBranch : String

/-- syncRepoFull from the sync command source: resolve the target branch and
upstream, read pre ahead/behind, skip dirty trees, plain-pull in no-rebase
mode; otherwise fingerprint the lockfile, rebase the current branch (failure
aborts and fails the repo with a message naming the branch pair), rebase
every other local branch, check the original branch out again, re-read the
fingerprint and ahead/behind, and compose the summary message. -/
def syncRepoFull (syncBranch : String) (syncNoRebase : Bool) (wsDefault : String)
    (name : String) (repo : RepoDef) (g : GitWorld) : SyncOutcome :=
  if g.isDirty then
    { result :=
        { name := name
          branch := g.currentBranch
          status := "skipped"
          message := "dirty working tree"
          ahead := (g.aheadBehindPre g.currentBranch
            ("origin/" ++ getTargetBranch syncBranch (some repo) wsDefault g.defEnv)).1
          behind := (g.aheadBehindPre g.currentBranch
            ("origin/" ++ getTargetBranch syncBranch (some repo) wsDefault g.defEnv)).2
          dirty := true
          dirtyStatus :=
            match g.statusShortColor with
            | some st => if st = "" then g.statusPlain else st
            | none => g.statusPlain
          lockfileChanged := false }
      events := []
      finalBranch := g.currentBranch }
  else if syncNoRebase then
    if g.pullOk then
      { result :=
          { name := name
            branch := g.currentBranch
            status := "synced"
            message := ""
            ahead := (g.aheadBehindPre g.currentBranch
              ("origin/" ++ getTargetBranch syncBranch (some repo) wsDefault g.defEnv)).1
            behind := (g.aheadBehindPre g.currentBranch
              ("origin/" ++ getTargetBranch syncBranch (some repo) wsDefault g.defEnv)).2
            dirty := false
            dirtyStatus := ""
            lockfileChanged := false }
        events := [GitEvent.pull]
        finalBranch := g.currentBranch }
    else
      { result :=
          { name := name
            branch := g.currentBranch
            status := "failed"
            message := g.pullErr
            ahead := (g.aheadBehindPre g.currentBranch
              ("origin/" ++ getTargetBranch syncBranch (some repo) wsDefault g.defEnv)).1
            behind := (g.aheadBehindPre g.currentBranch
              ("origin/" ++ getTargetBranch syncBranch (some repo) wsDefault g.defEnv)).2
            dirty := false
            dirtyStatus := ""
            lockfileChanged := false }
        events := [GitEvent.pull]
        finalBranch := g.currentBranch }
  else if g.rebaseOk g.currentBranch
      ("origin/" ++ getTargetBranch syncBranch (some repo) wsDefault g.defEnv) then
    { result :=
        { name := name
          branch := g.currentBranch
          status := "synced"
          message :=
            syncMessage
              (rebaseOthersLoop g g.currentBranch
                (getTargetBranch syncBranch (some repo) wsDefault g.defEnv)
                ("origin/" ++ getTargetBranch syncBranch (some repo) wsDefault g.defEnv)
                g.localBranches g.currentBranch).2.1
              (rebaseOthersLoop g g.currentBranch
                (getTargetBranch syncBranch (some repo) wsDefault g.defEnv)
                ("origin/" ++ getTargetBranch syncBranch (some repo) wsDefault g.defEnv)
                g.localBranches g.currentBranch).2.2.1
          ahead := (g.aheadBehindPost g.currentBranch
            ("origin/" ++ getTargetBranch syncBranch (some repo) wsDefault g.defEnv)).1
          behind := (g.aheadBehindPost g.currentBranch
            ("origin/" ++ getTargetBranch syncBranch (some repo) wsDefault g.defEnv)).2
          dirty := false
          dirtyStatus := ""
          lockfileChanged := fileHash g.lockStatBefore != fileHash g.lockStatAfter }
      events :=
        GitEvent.rebase g.currentBranch
            ("origin/" ++ getTargetBranch syncBranch (some repo) wsDefault g.defEnv) ::
          ((rebaseOthersLoop g g.currentBranch
              (getTargetBranch syncBranch (some repo) wsDefault g.defEnv)
              ("origin/" ++ getTargetBranch syncBranch (some repo) wsDefault g.defEnv)
              g.localBranches g.currentBranch).1 ++
            [GitEvent.checkout g.currentBranch (g.checkoutOk g.currentBranch)])
      finalBranch :=
        if g.checkoutOk g.currentBranch then g.currentBranch
        else (rebaseOthersLoop g g.currentBranch
          (getTargetBranch syncBranch (some repo) wsDefault g.defEnv)
          ("origin/" ++ getTargetBranch syncBranch (some repo) wsDefault g.defEnv)
          g.localBranches g.currentBranch).2.2.2 }
  else
    { result :=
        { name := name
          branch := g.currentBranch
          status := "failed"
          message := "rebase " ++ g.currentBranch ++ " onto " ++
            ("origin/" ++ getTargetBranch syncBranch (some repo) wsDefault g.defEnv) ++
            " failed"
          ahead := (g.aheadBehindPre g.currentBranch
            ("origin/" ++ getTargetBranch syncBranch (some repo) wsDefault g.defEnv)).1
          behind := (g.aheadBehindPre g.currentBranch
            ("origin/" ++ getTargetBranch syncBranch (some repo) wsDefault g.defEnv)).2
          dirty := false
          dirtyStatus := ""
          lockfileChanged := false }
      events :=
        [GitEvent.rebase g.currentBranch
          ("origin/" ++ getTargetBranch syncBranch (some repo) wsDefault g.defEnv),
         GitEvent.rebaseAbort]
      finalBranch := g.currentBranch }

/-- The install step of `syncAllRepos` under --install: the results that get
an npm install are exactly those whose lockfile changed and whose repo
directory holds a package.json. -/
def installTargets (results : List repoSyncResult) (pkgJSONExists : String → Bool) :
    List repoSyncResult :=
  results.filter (fun r => r.lockfileChanged && pkgJSONExists r.name)

/-- A plain repo definition for sync witnesses. -/
def cRepo : RepoDef := ⟨"r", "", []⟩

/-- Baseline git world for the sync claims: clean tree, every rebase and
checkout succeeds, identical lockfile stats around the phase. -/
def cWorldBase : GitWorld :=
  { currentBranch := "main"
    defEnv := ⟨none, fun _ => false⟩
    aheadBehindPre := fun _ _ => (1, 2)
    aheadBehindPost := fun _ _ => (0, 0)
    isDirty := false
    statusShortColor := some " M file"
    statusPlain := "M file"
    pullOk := true
    pullErr := ""
    lockStatBefore := some (100, 7)
    lockStatAfter := some (100, 7)
    localBranches := ["feature", "main"]
    rebaseOk := fun _ _ => true
    checkoutOk := fun _ => true }

/-- World with a dirty working tree (C2 witness). -/
def c2world : GitWorld := { cWorldBase with isDirty := true }

/-- World in which the final checkout of the original branch fails (C3
counterexample). -/
def c3world : GitWorld := { cWorldBase with checkoutOk := fun b => b != "main" }

/-- World in which the current branch's rebase fails (C6 witness). -/
def c6world : GitWorld := { cWorldBase with rebaseOk := fun _ _ => false }

/-- Default-branch environment advertising origin/HEAD (C8 witness). -/
def c8envRef : DefaultBranchEnv := ⟨some "refs/remotes/origin/develop", fun _ => false⟩

/-- Default-branch environment where only origin/prod verifies (C8
witness). -/
def c8envProbe : DefaultBranchEnv := ⟨none, fun b => b == "prod"⟩

/-- Every name the declared-dependency loop adds to `deps` was already there
or exists in the workspace (`depExists` guard before the append). -/
theorem collectList_deps_mem (step : String → CollectSt → CollectSt) (ws : Workspace)
    (hstep : ∀ d st x, x ∈ (step d st).deps → x ∈ st.deps ∨ (wsLookup ws x).isSome = true) :
    ∀ (ds : List String) (st : CollectSt) (x : String),
      x ∈ (collectList step ws ds st).deps → x ∈ st.deps ∨ (wsLookup ws x).isSome = true := by
  intro ds
  induction ds with
  | nil => intro st x h; exact Or.inl h
  | cons d ds ih =>
    intro st x h
    simp only [collectList] at h
    rcases ih _ x h with h' | h'
    · split at h'
      · rename_i hd
        split at h'
        · exact hstep d st x h'
        · rcases List.mem_append.mp h' with h'' | h''
          · exact hstep d st x h''
          · simp only [List.mem_singleton] at h''
            subst h''
            exact Or.inr hd
      · exact Or.inl h'
    · exact Or.inr h'

/-- Every name the implicit-edge step adds to `deps` was already there or
exists in the workspace (the append is guarded by the workspace lookup). -/
theorem collectModel_deps_mem (ws : Workspace) (rec : String → CollectSt → CollectSt)
    (hrec : ∀ d st x, x ∈ (rec d st).deps → x ∈ st.deps ∨ (wsLookup ws x).isSome = true)
    (n : String) (st : CollectSt) (x : String)
    (h : x ∈ (collectModel ws rec n st).deps) :
    x ∈ st.deps ∨ (wsLookup ws x).isSome = true := by
  unfold collectModel at h
  split at h
  · rename_i m _
    split at h
    · rename_i hm
      simp only at h
      rcases List.mem_append.mp h with h' | h'
      · exact hrec m st x h'
      · simp only [List.mem_singleton] at h'
        subst h'
        exact Or.inr hm
    · exact Or.inl h
  · exact Or.inl h

/-- Every name `collect` adds to `deps` was already there or exists in the
workspace: both the implicit append and the declared append are guarded by a
workspace lookup. -/
theorem collectFuel_deps_mem (ws : Workspace) :
    ∀ (f : Nat) (n : String) (st : CollectSt) (x : String),
      x ∈ (collectFuel ws f n st).deps → x ∈ st.deps ∨ (wsLookup ws x).isSome = true := by
  intro f
  induction f with
  | zero => intro n st x h; exact Or.inl h
  | succ f ih =>
    intro n st x h
    simp only [collectFuel] at h
    split at h
    · exact Or.inl h
    · have hb : ∀ y : String,
          y ∈ (collectModel ws (collectFuel ws f) n { st with seen := n :: st.seen }).deps →
            y ∈ st.deps ∨ (wsLookup ws y).isSome = true := by
        intro y hy
        exact collectModel_deps_mem ws _ (fun d st x hx => ih d st x hx) n
          { st with seen := n :: st.seen } y hy
      split at h
      · exact collectList_deps_mem (collectFuel ws f) ws (fun d st x hx => ih d st x hx)
          _ _ x h |>.elim (fun hx => hb x hx) Or.inr
      · exact hb x h

/-- Bridging lemma between the Bool `contains` used by the embedded code and
list membership. -/
theorem contains_eq_false_iff (l : List String) (a : String) :
    l.contains a = false ↔ a ∉ l := by
  constructor
  · intro h hm
    have h2 : l.contains a = true := List.elem_iff.mpr hm
    rw [h2] at h
    exact Bool.noConfusion h
  · intro h
    cases hc : l.contains a
    · rfl
    · exact absurd (List.elem_iff.mp hc) h

/-- Filter length is monotone in the predicate. -/
theorem length_filter_mono {α : Type} (l : List α) (p q : α → Bool)
    (h : ∀ x, p x = true → q x = true) :
    (l.filter p).length ≤ (l.filter q).length := by
  rw [← List.countP_eq_length_filter, ← List.countP_eq_length_filter]
  exact List.countP_mono_left (fun x _ hx => h x hx)

/-- Filter length grows strictly when an element of the list moves from
failing the predicate to satisfying it. -/
theorem length_filter_lt {α : Type} (l : List α) (p q : α → Bool)
    (h : ∀ x, p x = true → q x = true) (a : α) (ha : a ∈ l)
    (hpa : p a = false) (hqa : q a = true) :
    (l.filter p).length < (l.filter q).length := by
  obtain ⟨l1, l2, rfl⟩ := List.append_of_mem ha
  rw [List.filter_append, List.filter_append, List.filter_cons, List.filter_cons, hpa, hqa]
  rw [if_neg Bool.false_ne_true, if_pos rfl]
  simp only [List.length_append, List.length_cons]
  have h1 := length_filter_mono l1 p q h
  have h2 := length_filter_mono l2 p q h
  omega

/-- Growing the visited set never increases the termination measure. -/
theorem unseenCount_le_of_subset (ws : Workspace) {s1 s2 : CollectSt}
    (h : s1.seen ⊆ s2.seen) : unseenCount ws s2 ≤ unseenCount ws s1 := by
  unfold unseenCount
  apply length_filter_mono
  intro x hx
  have hx' : s2.seen.contains x = false := by
    have hb : (!s2.seen.contains x) = true := hx
    rwa [Bool.not_eq_true'] at hb
  show (!s1.seen.contains x) = true
  rw [Bool.not_eq_true']
  exact (contains_eq_false_iff _ _).mpr
    (fun hm => (contains_eq_false_iff _ _).mp hx' (h hm))

/-- A successful association-list lookup means the key occurs among the
mapped-out keys. -/
theorem key_mem_of_lookupStr {m : List (String × String)} {k v : String}
    (h : lookupStr m k = some v) : k ∈ m.map (fun p => p.1) := by
  unfold lookupStr at h
  obtain ⟨p, hp, -⟩ := Option.map_eq_some'.mp h
  have hmem := List.mem_of_find?_eq_some hp
  have hpk := List.find?_some hp
  simp only [beq_iff_eq] at hpk
  exact List.mem_map.mpr ⟨p, hmem, hpk⟩

/-- A node with an implicit counterpart is a recursing name. -/
theorem mem_recursers_of_apiToModel {n m : String}
    (h : lookupStr apiToModel n = some m) (ws : Workspace) : n ∈ recursers ws :=
  List.mem_append.mpr (Or.inr (key_mem_of_lookupStr h))

/-- A node that is a workspace key is a recursing name. -/
theorem mem_recursers_of_wsLookup {ws : Workspace} {n : String} {r : RepoDef}
    (h : wsLookup ws n = some r) : n ∈ recursers ws := by
  unfold wsLookup at h
  obtain ⟨p, hp, -⟩ := Option.map_eq_some'.mp h
  have hmem := List.mem_of_find?_eq_some hp
  have hpk := List.find?_some hp
  simp only [beq_iff_eq] at hpk
  exact List.mem_append.mpr (Or.inl (List.mem_map.mpr ⟨p, hmem, hpk⟩))

/-- The declared-dependency loop only grows the visited set. -/
theorem collectList_seen_subset (step : String → CollectSt → CollectSt) (ws : Workspace)
    (hstep : ∀ d st, st.seen ⊆ (step d st).seen) :
    ∀ (ds : List String) (st : CollectSt), st.seen ⊆ (collectList step ws ds st).seen := by
  intro ds
  induction ds with
  | nil => intro st; exact fun x hx => hx
  | cons d ds ih =>
    intro st
    simp only [collectList]
    refine List.Subset.trans ?_ (ih _)
    split
    · split
      · exact hstep d st
      · exact hstep d st
    · exact fun x hx => hx

/-- The implicit-edge step only grows the visited set. -/
theorem collectModel_seen_subset (ws : Workspace) (rec : String → CollectSt → CollectSt)
    (hrec : ∀ d st, st.seen ⊆ (rec d st).seen) (n : String) (st : CollectSt) :
    st.seen ⊆ (collectModel ws rec n st).seen := by
  unfold collectModel
  split
  · split
    · exact hrec _ st
    · exact fun x hx => hx
  · exact fun x hx => hx

/-- The collector only grows the visited set. -/
theorem collectFuel_seen_subset (ws : Workspace) :
    ∀ (f : Nat) (n : String) (st : CollectSt), st.seen ⊆ (collectFuel ws f n st).seen := by
  intro f
  induction f with
  | zero => intro n st x hx; exact hx
  | succ f ih =>
    intro n st
    simp only [collectFuel]
    split
    · exact fun x hx => hx
    · have hA : st.seen ⊆ ({ st with seen := n :: st.seen } : CollectSt).seen :=
        fun x hx => List.mem_cons_of_mem _ hx
      have hB : st.seen ⊆
          (collectModel ws (collectFuel ws f) n { st with seen := n :: st.seen }).seen :=
        List.Subset.trans hA (collectModel_seen_subset ws _ (fun d st => ih d st) n _)
      split
      · exact List.Subset.trans hB (collectList_seen_subset _ ws (fun d st => ih d st) _ _)
      · exact hB

/-- One-step unfolding of the collector at positive fuel. -/
theorem collectFuel_succ_unfold (ws : Workspace) (f : Nat) (n : String) (st : CollectSt) :
    collectFuel ws (f + 1) n st =
      if st.seen.contains n then st
      else
        match wsLookup ws n with
        | some repo =>
          collectList (collectFuel ws f) ws repo.dependencies
            (collectModel ws (collectFuel ws f) n { st with seen := n :: st.seen })
        | none => collectModel ws (collectFuel ws f) n { st with seen := n :: st.seen } :=
  rfl

/-- One unit of extra fuel changes nothing once the fuel dominates the
termination measure: the Go recursion, guarded by the visited set, needs only
boundedly many call levels. -/
theorem collectFuel_succ_eq (ws : Workspace) :
    ∀ f : Nat, ∀ (n : String) (st : CollectSt),
      unseenCount ws st < f → collectFuel ws (f + 1) n st = collectFuel ws f n st := by
  intro f
  induction f using Nat.strong_induction_on with
  | _ f IH =>
    intro n st hst
    obtain ⟨f', rfl⟩ : ∃ f', f = f' + 1 := ⟨f - 1, by omega⟩
    have hstle : unseenCount ws st ≤ f' := by omega
    show collectFuel ws (f' + 1 + 1) n st = collectFuel ws (f' + 1) n st
    rw [collectFuel_succ_unfold ws (f' + 1) n st, collectFuel_succ_unfold ws f' n st]
    split
    · rfl
    · rename_i hn
      have hdropA : n ∈ recursers ws →
          unseenCount ws { st with seen := n :: st.seen } < unseenCount ws st := by
        intro hmem
        unfold unseenCount
        have himp : ∀ x : String,
            (!((n :: st.seen).contains x)) = true → (!(st.seen.contains x)) = true := by
          intro x hx
          have hx' : (n :: st.seen).contains x = false := by
            rwa [Bool.not_eq_true'] at hx
          rw [Bool.not_eq_true']
          exact (contains_eq_false_iff _ _).mpr
            (fun hm => (contains_eq_false_iff _ _).mp hx' (List.mem_cons_of_mem _ hm))
        have hpa : (!((n :: st.seen).contains n)) = false := by
          rw [Bool.not_eq_false']
          exact List.elem_iff.mpr (List.mem_cons_self _ _)
        have hqa : (!(st.seen.contains n)) = true := by
          rw [Bool.not_eq_true']
          cases hc : st.seen.contains n
          · rfl
          · exact absurd hc hn
        exact length_filter_lt (recursers ws) _ _ himp n hmem hpa hqa
      have hB : collectModel ws (collectFuel ws (f' + 1)) n { st with seen := n :: st.seen } =
          collectModel ws (collectFuel ws f') n { st with seen := n :: st.seen } := by
        unfold collectModel
        cases hapi : lookupStr apiToModel n with
        | none => rfl
        | some m =>
          simp only
          by_cases hm : (wsLookup ws m).isSome = true
          · rw [if_pos hm, if_pos hm]
            have hlt : unseenCount ws ({ st with seen := n :: st.seen } : CollectSt) < f' :=
              lt_of_lt_of_le (hdropA (mem_recursers_of_apiToModel hapi ws)) hstle
            rw [IH f' (Nat.lt_succ_self _) m _ hlt]
          · rw [if_neg hm, if_neg hm]
      have hlist : ∀ (ds : List String) (stc : CollectSt), unseenCount ws stc < f' →
          collectList (collectFuel ws (f' + 1)) ws ds stc
            = collectList (collectFuel ws f') ws ds stc := by
        intro ds
        induction ds with
        | nil => intro stc _; rfl
        | cons d ds ihds =>
          intro stc hc
          simp only [collectList]
          by_cases hd : (wsLookup ws d).isSome = true
          · rw [if_pos hd, if_pos hd, IH f' (Nat.lt_succ_self _) d stc hc]
            apply ihds
            have hle : unseenCount ws (collectFuel ws f' d stc) ≤ unseenCount ws stc :=
              unseenCount_le_of_subset ws (collectFuel_seen_subset ws f' d stc)
            by_cases hcon : (collectFuel ws f' d stc).deps.contains d = true
            · rw [if_pos hcon]
              omega
            · rw [if_neg hcon]
              show unseenCount ws
                  { collectFuel ws f' d stc with
                    deps := (collectFuel ws f' d stc).deps ++ [d] } < f'
              have heq : unseenCount ws
                  { collectFuel ws f' d stc with
                    deps := (collectFuel ws f' d stc).deps ++ [d] }
                  = unseenCount ws (collectFuel ws f' d stc) := rfl
              omega
          · rw [if_neg hd, if_neg hd]
            exact ihds stc hc
      cases hwn : wsLookup ws n with
      | none => exact hB
      | some repo =>
        rw [hB]
        apply hlist
        have h1 : unseenCount ws
            (collectModel ws (collectFuel ws f') n { st with seen := n :: st.seen })
            ≤ unseenCount ws ({ st with seen := n :: st.seen } : CollectSt) :=
          unseenCount_le_of_subset ws
            (collectModel_seen_subset ws _ (fun d st => collectFuel_seen_subset ws f' d st) n _)
        have h2 := hdropA (mem_recursers_of_wsLookup hwn)
        omega

/-- Enough fuel makes the collector stationary: beyond `resolveFuel` the
result no longer depends on the fuel, i.e. the source recursion terminates. -/
theorem collectFuel_stable (ws : Workspace) (n : String) :
    ∀ f : Nat, resolveFuel ws ≤ f →
      collectFuel ws f n ⟨[], []⟩ = collectFuel ws (resolveFuel ws) n ⟨[], []⟩ := by
  have hcount : unseenCount ws ⟨[], []⟩ < resolveFuel ws := by
    unfold unseenCount resolveFuel
    have hall : (recursers ws).filter
        (fun x => ! (([] : List String).contains x)) = recursers ws :=
      List.filter_eq_self.mpr (fun a _ => rfl)
    rw [hall]
    unfold recursers apiToModel
    simp
  intro f hf
  obtain ⟨k, rfl⟩ : ∃ k, f = resolveFuel ws + k := ⟨f - resolveFuel ws, by omega⟩
  clear hf
  induction k with
  | zero => rfl
  | succ k ih =>
    have hstep : resolveFuel ws + (k + 1) = (resolveFuel ws + k) + 1 := by omega
    rw [hstep, collectFuel_succ_eq ws (resolveFuel ws + k) n ⟨[], []⟩ (by omega), ih]

/-- C4 (amended): on every workspace — cyclic graphs included — the resolver
terminates: the fuel-indexed unfolding of `collect` is stationary from
`resolveFuel` on, so the visited set bounds the recursion and the result is a
finite list. (Duplicate-freeness, the refuted part, is dropped; see
`c4_cycle_duplicate_counterexample`.) -/
theorem getDepsForRun_terminates (ws : Workspace) (name : String) (f : Nat)
    (hf : resolveFuel ws ≤ f) :
    getDepsForRunFuel ws f name = getDepsForRun ws name := by
  unfold getDepsForRun getDepsForRunFuel
  rw [collectFuel_stable ws name f hf]

/-- C4 witness: on the cyclic workspace, running the resolver with surplus
fuel returns the same finite list. -/
theorem getDepsForRun_terminates_witness :
    getDepsForRunFuel c4ws (resolveFuel c4ws + 7) "Root" = getDepsForRun c4ws "Root" :=
  getDepsForRun_terminates c4ws "Root" (resolveFuel c4ws + 7) (Nat.le_add_right _ _)

/-- C4 counterexample: a workspace with a cycle reachable from the target
(`Root` and `AppAPI` declare each other) on which the resolver terminates but
returns a duplicated name, so "finite, duplicate-free" fails as stated. -/
theorem c4_cycle_duplicate_counterexample :
    ("AppAPI" ∈ ((wsLookup c4ws "Root").getD ⟨"", "", []⟩).dependencies ∧
        "Root" ∈ ((wsLookup c4ws "AppAPI").getD ⟨"", "", []⟩).dependencies) ∧
      ¬ (getDepsForRun c4ws "Root").Nodup := by
  decide

/-- C1 (amended): the resolver output never contains the target and every
name in it is a key of the workspace's repo map. (The original claim's
duplicate-freeness fails, see `c1_duplicate_counterexample`.) -/
theorem getDepsForRun_no_target_all_known (ws : Workspace) (r : String) :
    (getDepsForRun ws r).contains r = false ∧
      (getDepsForRun ws r).all (fun x => (wsLookup ws x).isSome) = true := by
  constructor
  · have hr : r ∉ getDepsForRun ws r := by
      intro hmem
      simp only [getDepsForRun, getDepsForRunFuel] at hmem
      have := (List.mem_filter.mp hmem).2
      simp at this
    simpa using hr
  · refine List.all_eq_true.mpr ?_
    intro x hx
    simp only [getDepsForRun, getDepsForRunFuel] at hx
    have hx' := List.mem_of_mem_filter hx
    rcases collectFuel_deps_mem ws (resolveFuel ws) r ⟨[], []⟩ x hx' with h | h
    · simp at h
    · simpa using h

/-- C1 counterexample: the resolver output can contain duplicates — the
implicit model append at the `AppAPI` node is not guarded by `containsRun`. -/
theorem c1_duplicate_counterexample :
    getDepsForRun c1ws "Root" = ["AppModel", "AppModel", "AppAPI"] ∧
      ¬ (getDepsForRun c1ws "Root").Nodup := by
  decide

/-- C5: post-order resolution of the scenario workspace: `Z` is appended
during `Y`'s recursion, `Y` after its own dependencies, and the later direct
visit to `Z` adds nothing. -/
theorem c5_resolve_post_order : getDepsForRun c5ws "X" = ["Z", "Y"] := by
  decide

/-- C7: link-state reconciliation is idempotent: if a call performs the link
transition and returns `linked`, a second call on the world it left behind
(no artifact or link changes in between) observes the consumer already
linked, returns the already-linked skipped outcome, leaves the world
untouched and performs no link operation. -/
theorem autoLinkDeps_idempotent (wsPath : String) (ws : Workspace) (name : String)
    (w : NpmWorld) (h : (autoLinkDeps wsPath ws name w).outcome = LinkOutcome.linked) :
    autoLinkDeps wsPath ws name (autoLinkDeps wsPath ws name w).world =
      ⟨LinkOutcome.skippedAlreadyLinked, (autoLinkDeps wsPath ws name w).world, []⟩ := by
  cases hapi : lookupStr apiToModel name with
  | none =>
    simp [autoLinkDeps, hapi] at h
  | some modelName =>
    cases hws : wsLookup ws modelName with
    | none =>
      simp [autoLinkDeps, hapi, hws] at h
    | some modelRepo =>
      have hrun : autoLinkDeps wsPath ws name w =
          (if !w.isBuilt (joinPath wsPath modelRepo.path) then
            ⟨.skippedNoBuild, w, []⟩
          else if w.isLinked (joinPath wsPath ((wsLookup ws name).getD {}).path)
              ((lookupDM modelToAPI modelName).getD {}).pkg then
            ⟨.skippedAlreadyLinked, w, []⟩
          else if !w.linkOk (BuildOutputDir (joinPath wsPath modelRepo.path)) then
            ⟨.failedLink, w, [.link (BuildOutputDir (joinPath wsPath modelRepo.path))]⟩
          else if !w.linkPackageOk (joinPath wsPath ((wsLookup ws name).getD {}).path)
              ((lookupDM modelToAPI modelName).getD {}).pkg then
            ⟨.failedLinkPackage, w,
              [.link (BuildOutputDir (joinPath wsPath modelRepo.path)),
               .linkPackage (joinPath wsPath ((wsLookup ws name).getD {}).path)
                 ((lookupDM modelToAPI modelName).getD {}).pkg]⟩
          else
            ⟨.linked,
              npmLinkPackageEffect w (joinPath wsPath ((wsLookup ws name).getD {}).path)
                ((lookupDM modelToAPI modelName).getD {}).pkg,
              [.link (BuildOutputDir (joinPath wsPath modelRepo.path)),
               .linkPackage (joinPath wsPath ((wsLookup ws name).getD {}).path)
                 ((lookupDM modelToAPI modelName).getD {}).pkg]⟩ : LinkRun) := by
        simp only [autoLinkDeps, hapi, hws]
      rw [hrun] at h
      split at h
      · simp at h
      · rename_i hnb
        split at h
        · simp at h
        · rename_i hnl
          split at h
          · simp at h
          · rename_i hok
            split at h
            · simp at h
            · rename_i hpk
              have hworld : (autoLinkDeps wsPath ws name w).world =
                  npmLinkPackageEffect w
                    (joinPath wsPath ((wsLookup ws name).getD {}).path)
                    ((lookupDM modelToAPI modelName).getD {}).pkg := by
                rw [hrun, if_neg hnb, if_neg hnl, if_neg hok, if_neg hpk]
              rw [hworld]
              simp only [autoLinkDeps, hapi, hws, npmLinkPackageEffect]
              simp [hnb]

/-- C7 witness: concrete first call performing the transition, second call
skipping as already linked. -/
theorem autoLinkDeps_idempotent_witness :
    autoLinkDeps "/ws" c7ws "AppAPI" (autoLinkDeps "/ws" c7ws "AppAPI" c7world).world =
      ⟨LinkOutcome.skippedAlreadyLinked,
        (autoLinkDeps "/ws" c7ws "AppAPI" c7world).world, []⟩ :=
  autoLinkDeps_idempotent "/ws" c7ws "AppAPI" c7world (by rfl)

/-- Cons-step unfolding for `goContains`. -/
theorem goContains_cons (a : Char) (as : List Char) (c : Char) :
    goContains (a :: as) c = if a = c then true else goContains as c := rfl

/-- Cons-step unfolding for `afterLastSlash`. -/
theorem afterLastSlash_cons (c : Char) (cs : List Char) :
    afterLastSlash (c :: cs) =
      if goContains cs '/' then afterLastSlash cs
      else if c = '/' then cs else c :: cs := rfl

/-- `goContains` distributes over append as a disjunction. -/
theorem goContains_append (a b : List Char) (c : Char) :
    goContains (a ++ b) c = (goContains a c || goContains b c) := by
  induction a with
  | nil => simp [goContains]
  | cons x xs ih =>
    rw [List.cons_append, goContains_cons, goContains_cons]
    by_cases hx : x = c
    · simp [hx]
    · simp [hx, ih]

/-- Without a slash, `afterLastSlash` is the identity. -/
theorem afterLastSlash_no_slash (s : List Char) (h : goContains s '/' = false) :
    afterLastSlash s = s := by
  induction s with
  | nil => rfl
  | cons c cs ih =>
    rw [goContains_cons] at h
    by_cases hc : c = '/'
    · rw [if_pos hc] at h
      exact absurd h (by decide)
    · rw [if_neg hc] at h
      rw [afterLastSlash_cons, h, if_neg (by decide), if_neg hc]

/-- A split never produces the empty list of pieces. -/
theorem goSplit_ne_nil (sep : Char) (s : List Char) : goSplit sep s ≠ [] := by
  cases s with
  | nil => simp [goSplit]
  | cons c cs =>
    simp only [goSplit]
    by_cases hc : c = sep
    · simp [hc]
    · rw [if_neg hc]
      cases hsp : goSplit sep cs with
      | nil => simp
      | cons p ps => simp

/-- Splitting a string without the separator yields the one-piece list. -/
theorem goSplit_of_no_sep (sep : Char) (s : List Char) (h : goContains s sep = false) :
    goSplit sep s = [s] := by
  induction s with
  | nil => rfl
  | cons c cs ih =>
    rw [goContains_cons] at h
    by_cases hc : c = sep
    · rw [if_pos hc] at h
      exact absurd h (by decide)
    · rw [if_neg hc] at h
      simp only [goSplit]
      rw [if_neg hc, ih h]

/-- Splitting a string containing the separator yields at least two pieces. -/
theorem goSplit_length_ge_two (sep : Char) (s : List Char) (h : goContains s sep = true) :
    2 ≤ (goSplit sep s).length := by
  induction s with
  | nil => simp [goContains] at h
  | cons c cs ih =>
    rw [goContains_cons] at h
    simp only [goSplit]
    by_cases hc : c = sep
    · rw [if_pos hc]
      have h1 : 1 ≤ (goSplit sep cs).length := by
        cases hsp : goSplit sep cs with
        | nil => exact absurd hsp (goSplit_ne_nil sep cs)
        | cons p ps => simp
      simp only [List.length_cons]
      omega
    · rw [if_neg hc] at h ⊢
      have h2 := ih h
      cases hsp : goSplit sep cs with
      | nil => exact absurd hsp (goSplit_ne_nil sep cs)
      | cons p ps =>
        rw [hsp] at h2
        simp only [List.length_cons] at h2 ⊢
        omega

/-- The last piece of a slash-split is exactly the after-last-slash slice
(the `parts[len(parts)-1]` read). -/
theorem goSplit_getLastD (s : List Char) :
    (goSplit '/' s).getLastD [] = afterLastSlash s := by
  induction s with
  | nil => rfl
  | cons c cs ih =>
    by_cases hc : c = '/'
    · rw [show goSplit '/' (c :: cs) = [] :: goSplit '/' cs from by
        simp only [goSplit]; rw [if_pos hc]]
      rw [List.getLastD_cons, ih, afterLastSlash_cons]
      cases hcs : goContains cs '/' with
      | true => rw [if_pos rfl]
      | false =>
        rw [if_neg (by decide), if_pos hc]
        exact afterLastSlash_no_slash cs hcs
    · rw [afterLastSlash_cons]
      cases hcs : goContains cs '/' with
      | false =>
        rw [if_neg (by decide), if_neg hc]
        rw [show goSplit '/' (c :: cs) = [c :: cs] from by
          simp only [goSplit]
          rw [if_neg hc, goSplit_of_no_sep '/' cs hcs]]
        rfl
      | true =>
        rw [if_pos rfl]
        have hlen := goSplit_length_ge_two '/' cs hcs
        cases hsp : goSplit '/' cs with
        | nil => exact absurd hsp (goSplit_ne_nil '/' cs)
        | cons p ps =>
          rw [hsp] at hlen ih
          cases ps with
          | nil => simp at hlen
          | cons q qs =>
            rw [show goSplit '/' (c :: cs) = (c :: p) :: q :: qs from by
              simp only [goSplit]
              rw [if_neg hc, hsp]]
            rw [List.getLastD_cons, List.getLastD_cons] at ih ⊢
            exact ih

/-- `afterLastSlash` on an append looks at the right part first. -/
theorem afterLastSlash_append (a b : List Char) :
    afterLastSlash (a ++ b) =
      if goContains b '/' then afterLastSlash b else afterLastSlash a ++ b := by
  induction a with
  | nil =>
    rw [List.nil_append]
    cases hb : goContains b '/' with
    | true => rw [if_pos rfl]
    | false =>
      rw [if_neg (by decide)]
      rw [afterLastSlash_no_slash b hb]
      rfl
  | cons c a' ih =>
    rw [List.cons_append, afterLastSlash_cons, afterLastSlash_cons, goContains_append, ih]
    cases hb : goContains b '/' with
    | true => simp
    | false =>
      cases ha : goContains a' '/' with
      | true => simp
      | false =>
        simp only [Bool.or_false, if_neg (show ¬(false = true) by decide)]
        by_cases hcq : c = '/'
        · simp [hcq]
        · simp [hcq]

/-- Stripping trailing slashes is the identity on strings ending in ".git". -/
theorem stripTrailingSlashes_git (x : List Char) :
    stripTrailingSlashes (x ++ ".git".toList) = x ++ ".git".toList := by
  unfold stripTrailingSlashes
  rw [List.reverse_append]
  rw [show (".git".toList).reverse = 't' :: "ig.".toList from rfl]
  rw [List.cons_append, List.dropWhile_cons, if_neg (by decide)]
  rw [← List.cons_append, List.reverse_append, List.reverse_reverse]
  rfl

/-- Appending a suffix makes `goHasSuf` hold. -/
theorem goHasSuf_append (x y : List Char) : goHasSuf (x ++ y) y = true := by
  unfold goHasSuf
  have h1 : y.length ≤ (x ++ y).length := by
    rw [List.length_append]; omega
  have h2 : (x ++ y).length - y.length = x.length := by
    rw [List.length_append]; omega
  rw [h2, List.drop_left]
  simp [h1]

/-- Trimming the suffix that was just appended recovers the left part. -/
theorem goTrimSuffix_append (x y : List Char) : goTrimSuffix (x ++ y) y = x := by
  unfold goTrimSuffix
  rw [if_pos (goHasSuf_append x y)]
  have h2 : (x ++ y).length - y.length = x.length := by
    rw [List.length_append]; omega
  rw [h2, List.take_left]

/-- C10: for an org/repo shorthand (a string with a slash, no colon and no
remote-URL prefix), extracting the repo name from the built remote URL
round-trips: both the direct extraction and the extraction through
`BuildRemoteURL` give the substring after the last slash. -/
theorem RepoNameFromRemote_roundtrip (s : List Char)
    (h1 : goContains s '/' = true) (h2 : goContains s ':' = false)
    (h3 : goHasPre s "git@".toList = false) (h4 : goHasPre s "https://".toList = false) :
    RepoNameFromRemote (BuildRemoteURL s) = afterLastSlash s ∧
      RepoNameFromRemote s = afterLastSlash s := by
  have hurl : BuildRemoteURL s = ("git@github.com:".toList ++ s) ++ ".git".toList := by
    unfold BuildRemoteURL
    rw [h3, h4, if_neg (by decide)]
  constructor
  · rw [hurl]
    have hcolon :
        goContains (("git@github.com:".toList ++ s) ++ ".git".toList) ':' = true := by
      rw [goContains_append, goContains_append, h2]
      decide
    have hcond : (!goContains (("git@github.com:".toList ++ s) ++ ".git".toList) ':' &&
        goContains (("git@github.com:".toList ++ s) ++ ".git".toList) '/') = false := by
      rw [hcolon]
      rfl
    unfold RepoNameFromRemote
    rw [hcond, if_neg (show ¬(false = true) by decide)]
    have hne : (("git@github.com:".toList ++ s) ++ ".git".toList) ≠ [] := by simp
    unfold goBase
    rw [if_neg hne]
    rw [stripTrailingSlashes_git ("git@github.com:".toList ++ s)]
    have hafter : afterLastSlash (("git@github.com:".toList ++ s) ++ ".git".toList)
        = afterLastSlash s ++ ".git".toList := by
      rw [afterLastSlash_append ("git@github.com:".toList ++ s) ".git".toList]
      rw [show goContains ".git".toList '/' = false from rfl]
      rw [if_neg (show ¬(false = true) by decide)]
      rw [afterLastSlash_append "git@github.com:".toList s, h1]
      rw [if_pos (show (true = true) from rfl)]
    rw [hafter]
    rw [if_neg (show ¬(afterLastSlash s ++ ".git".toList = []) by simp)]
    exact goTrimSuffix_append _ _
  · unfold RepoNameFromRemote
    rw [h1, h2]
    rw [if_pos (show ((!false && true) = true) from rfl)]
    exact goSplit_getLastD s

/-- C10 witness: the round-trip at the concrete shorthand "org/repo". -/
theorem RepoNameFromRemote_roundtrip_witness :
    RepoNameFromRemote (BuildRemoteURL "org/repo".toList) = afterLastSlash "org/repo".toList ∧
      RepoNameFromRemote "org/repo".toList = afterLastSlash "org/repo".toList :=
  RepoNameFromRemote_roundtrip "org/repo".toList (by decide) (by decide) (by decide) (by decide)

/-- C8: the sync target branch follows the exact precedence chain: the
per-run --branch override if non-empty, else the repo's default branch, else
the workspace default, else the remote-advertised default branch (the last
path component of origin/HEAD when available, else probing origin/main then
origin/prod), else the hardcoded fallback "main". -/
theorem getTargetBranch_precedence (sb wsd : String) (repo : Option RepoDef)
    (g : DefaultBranchEnv) :
    (sb ≠ "" → getTargetBranch sb repo wsd g = sb) ∧
    (sb = "" → ∀ r : RepoDef, repo = some r → r.defaultBranch ≠ "" →
      getTargetBranch sb repo wsd g = r.defaultBranch) ∧
    (sb = "" → (∀ r : RepoDef, repo = some r → r.defaultBranch = "") → wsd ≠ "" →
      getTargetBranch sb repo wsd g = wsd) ∧
    (sb = "" → (∀ r : RepoDef, repo = some r → r.defaultBranch = "") → wsd = "" →
      getTargetBranch sb repo wsd g = GetDefaultBranch g) ∧
    (∀ ref : String, g.symbolicRef = some ref →
      GetDefaultBranch g = String.mk ((goSplit '/' ref.toList).getLastD [])) ∧
    (g.symbolicRef = none → g.branchVerifies "main" = true →
      GetDefaultBranch g = "main") ∧
    (g.symbolicRef = none → g.branchVerifies "main" = false →
      g.branchVerifies "prod" = true → GetDefaultBranch g = "prod") ∧
    (g.symbolicRef = none → g.branchVerifies "main" = false →
      g.branchVerifies "prod" = false → GetDefaultBranch g = "main") := by
  refine ⟨?_, ?_, ?_, ?_, ?_, ?_, ?_, ?_⟩
  · intro hsb
    unfold getTargetBranch
    rw [if_pos hsb]
  · intro hsb r hr hrdb
    subst hr
    show (if sb ≠ "" then sb else
      if r.defaultBranch ≠ "" then r.defaultBranch
      else if wsd ≠ "" then wsd else GetDefaultBranch g) = r.defaultBranch
    rw [if_neg (by simp [hsb]), if_pos hrdb]
  · intro hsb hrd hw
    cases repo with
    | none =>
      show (if sb ≠ "" then sb else
        if wsd ≠ "" then wsd else GetDefaultBranch g) = wsd
      rw [if_neg (by simp [hsb]), if_pos hw]
    | some r =>
      have hr := hrd r rfl
      show (if sb ≠ "" then sb else
        if r.defaultBranch ≠ "" then r.defaultBranch
        else if wsd ≠ "" then wsd else GetDefaultBranch g) = wsd
      rw [if_neg (by simp [hsb]), if_neg (by simp [hr]), if_pos hw]
  · intro hsb hrd hw
    cases repo with
    | none =>
      show (if sb ≠ "" then sb else
        if wsd ≠ "" then wsd else GetDefaultBranch g) = GetDefaultBranch g
      rw [if_neg (by simp [hsb]), if_neg (by simp [hw])]
    | some r =>
      have hr := hrd r rfl
      show (if sb ≠ "" then sb else
        if r.defaultBranch ≠ "" then r.defaultBranch
        else if wsd ≠ "" then wsd else GetDefaultBranch g) = GetDefaultBranch g
      rw [if_neg (by simp [hsb]), if_neg (by simp [hr]), if_neg (by simp [hw])]
  · intro ref href
    unfold GetDefaultBranch
    rw [href]
    show (if (goSplit '/' ref.toList).length > 0 then
        String.mk ((goSplit '/' ref.toList).getLastD [])
      else if g.branchVerifies "main" then "main"
      else if g.branchVerifies "prod" then "prod"
      else "main") = String.mk ((goSplit '/' ref.toList).getLastD [])
    rw [if_pos (List.length_pos.mpr (goSplit_ne_nil '/' ref.toList))]
  · intro hnone hmain
    unfold GetDefaultBranch
    rw [hnone]
    show (if g.branchVerifies "main" = true then "main"
      else if g.branchVerifies "prod" = true then "prod" else "main") = "main"
    rw [if_pos hmain]
  · intro hnone hmain hprod
    unfold GetDefaultBranch
    rw [hnone]
    show (if g.branchVerifies "main" = true then "main"
      else if g.branchVerifies "prod" = true then "prod" else "main") = "prod"
    rw [if_neg (by simp [hmain]), if_pos hprod]
  · intro hnone hmain hprod
    unfold GetDefaultBranch
    rw [hnone]
    show (if g.branchVerifies "main" = true then "main"
      else if g.branchVerifies "prod" = true then "prod" else "main") = "main"
    rw [if_neg (by simp [hmain]), if_neg (by simp [hprod])]

/-- C8 witness: every step of the precedence chain at a concrete input. -/
theorem getTargetBranch_precedence_witness :
    getTargetBranch "dev" (some ⟨"p", "rb", []⟩) "wb" c8envProbe = "dev" ∧
    getTargetBranch "" (some ⟨"p", "rb", []⟩) "wb" c8envProbe = "rb" ∧
    getTargetBranch "" (some ⟨"p", "", []⟩) "wb" c8envProbe = "wb" ∧
    getTargetBranch "" (some ⟨"p", "", []⟩) "" c8envProbe = GetDefaultBranch c8envProbe ∧
    GetDefaultBranch c8envRef =
      String.mk ((goSplit '/' "refs/remotes/origin/develop".toList).getLastD []) ∧
    GetDefaultBranch ⟨none, fun _ => true⟩ = "main" ∧
    GetDefaultBranch c8envProbe = "prod" ∧
    GetDefaultBranch ⟨none, fun _ => false⟩ = "main" :=
  ⟨(getTargetBranch_precedence "dev" "wb" (some ⟨"p", "rb", []⟩) c8envProbe).1 (by decide),
   (getTargetBranch_precedence "" "wb" (some ⟨"p", "rb", []⟩) c8envProbe).2.1 rfl
     ⟨"p", "rb", []⟩ rfl (by decide),
   (getTargetBranch_precedence "" "wb" (some ⟨"p", "", []⟩) c8envProbe).2.2.1 rfl
     (fun r hr => by cases hr; rfl) (by decide),
   (getTargetBranch_precedence "" "" (some ⟨"p", "", []⟩) c8envProbe).2.2.2.1 rfl
     (fun r hr => by cases hr; rfl) rfl,
   (getTargetBranch_precedence "" "" none c8envRef).2.2.2.2.1
     "refs/remotes/origin/develop" rfl,
   (getTargetBranch_precedence "" "" none ⟨none, fun _ => true⟩).2.2.2.2.2.1 rfl rfl,
   (getTargetBranch_precedence "" "" none c8envProbe).2.2.2.2.2.2.1 rfl
     (by decide) (by decide),
   (getTargetBranch_precedence "" "" none ⟨none, fun _ => false⟩).2.2.2.2.2.2.2
     rfl rfl rfl⟩

/-- C2: a dirty working tree short-circuits the sync: the result is skipped
and marked dirty, no rebase, checkout or pull is attempted (empty mutation
trace), and the recorded ahead/behind counts are the ones read before the
dirty check, never post-rebase ones. -/
theorem syncRepoFull_dirty_skips (sb : String) (nrb : Bool) (wsd name : String)
    (repo : RepoDef) (g : GitWorld) (h : g.isDirty = true) :
    (syncRepoFull sb nrb wsd name repo g).result.status = "skipped" ∧
    (syncRepoFull sb nrb wsd name repo g).result.dirty = true ∧
    (syncRepoFull sb nrb wsd name repo g).events = [] ∧
    (syncRepoFull sb nrb wsd name repo g).result.ahead =
      (g.aheadBehindPre g.currentBranch
        ("origin/" ++ getTargetBranch sb (some repo) wsd g.defEnv)).1 ∧
    (syncRepoFull sb nrb wsd name repo g).result.behind =
      (g.aheadBehindPre g.currentBranch
        ("origin/" ++ getTargetBranch sb (some repo) wsd g.defEnv)).2 := by
  unfold syncRepoFull
  rw [h]
  rw [if_pos (show (true = true) from rfl)]
  exact ⟨rfl, rfl, rfl, rfl, rfl⟩

/-- C2 witness: the dirty world at concrete inputs. -/
theorem syncRepoFull_dirty_skips_witness :
    (syncRepoFull "" false "" "R" cRepo c2world).result.status = "skipped" ∧
    (syncRepoFull "" false "" "R" cRepo c2world).result.dirty = true ∧
    (syncRepoFull "" false "" "R" cRepo c2world).events = [] ∧
    (syncRepoFull "" false "" "R" cRepo c2world).result.ahead =
      (c2world.aheadBehindPre c2world.currentBranch
        ("origin/" ++ getTargetBranch "" (some cRepo) "" c2world.defEnv)).1 ∧
    (syncRepoFull "" false "" "R" cRepo c2world).result.behind =
      (c2world.aheadBehindPre c2world.currentBranch
        ("origin/" ++ getTargetBranch "" (some cRepo) "" c2world.defEnv)).2 :=
  syncRepoFull_dirty_skips "" false "" "R" cRepo c2world rfl

/-- C3 (amended): when the multi-branch phase runs to completion, the final
recorded mutation is the unconditional checkout of the original branch, and
whenever that checkout succeeds the repo ends on the original branch. (The
restoration is attempted unconditionally but its error is discarded, so a
failing checkout leaves another branch checked out; see
`syncRepoFull_restore_counterexample`.) -/
theorem syncRepoFull_restore_attempted (sb wsd name : String) (repo : RepoDef)
    (g : GitWorld) (h1 : g.isDirty = false)
    (h2 : g.rebaseOk g.currentBranch
      ("origin/" ++ getTargetBranch sb (some repo) wsd g.defEnv) = true) :
    (syncRepoFull sb false wsd name repo g).events.getLast? =
      some (GitEvent.checkout g.currentBranch (g.checkoutOk g.currentBranch)) ∧
    (g.checkoutOk g.currentBranch = true →
      (syncRepoFull sb false wsd name repo g).finalBranch = g.currentBranch) := by
  unfold syncRepoFull
  rw [h1, h2]
  rw [if_neg (show ¬(false = true) by decide), if_neg (show ¬(false = true) by decide)]
  rw [if_pos (show (true = true) from rfl)]
  constructor
  · rw [← List.cons_append]
    exact List.getLast?_concat _
  · intro hco
    rw [hco, if_pos (show (true = true) from rfl)]

/-- C3 counterexample: a completed rebase phase in which the final checkout
of the original branch fails, so the repo is left on another branch even
though the phase did not return early. -/
theorem syncRepoFull_restore_counterexample :
    (syncRepoFull "" false "" "R" cRepo c3world).result.status = "synced" ∧
    (syncRepoFull "" false "" "R" cRepo c3world).finalBranch ≠ c3world.currentBranch := by
  decide

/-- C3 witness: with every checkout succeeding, the phase ends back on the
original branch and the restore checkout is the last event. -/
theorem syncRepoFull_restore_attempted_witness :
    (syncRepoFull "" false "" "R" cRepo cWorldBase).events.getLast? =
      some (GitEvent.checkout cWorldBase.currentBranch
        (cWorldBase.checkoutOk cWorldBase.currentBranch)) ∧
    (syncRepoFull "" false "" "R" cRepo cWorldBase).finalBranch =
      cWorldBase.currentBranch := by
  have h := syncRepoFull_restore_attempted "" "" "R" cRepo cWorldBase rfl rfl
  exact ⟨h.1, h.2 rfl⟩

/-- C6: when the current branch's rebase onto its upstream fails, the rebase
is aborted, the result is failed with a message naming both the branch and
the upstream ref, and no other branch is checked out or rebased. -/
theorem syncRepoFull_current_rebase_fails (sb wsd name : String) (repo : RepoDef)
    (g : GitWorld) (h1 : g.isDirty = false)
    (h2 : g.rebaseOk g.currentBranch
      ("origin/" ++ getTargetBranch sb (some repo) wsd g.defEnv) = false) :
    (syncRepoFull sb false wsd name repo g).result.status = "failed" ∧
    (syncRepoFull sb false wsd name repo g).result.message =
      "rebase " ++ g.currentBranch ++ " onto " ++
        ("origin/" ++ getTargetBranch sb (some repo) wsd g.defEnv) ++ " failed" ∧
    (syncRepoFull sb false wsd name repo g).events =
      [GitEvent.rebase g.currentBranch
        ("origin/" ++ getTargetBranch sb (some repo) wsd g.defEnv),
       GitEvent.rebaseAbort] := by
  unfold syncRepoFull
  rw [h1, h2]
  rw [if_neg (show ¬(false = true) by decide), if_neg (show ¬(false = true) by decide),
    if_neg (show ¬(false = true) by decide)]
  exact ⟨rfl, rfl, rfl⟩

/-- C6 witness: a world whose current-branch rebase fails. -/
theorem syncRepoFull_current_rebase_fails_witness :
    (syncRepoFull "" false "" "R" cRepo c6world).result.status = "failed" ∧
    (syncRepoFull "" false "" "R" cRepo c6world).result.message =
      "rebase " ++ c6world.currentBranch ++ " onto " ++
        ("origin/" ++ getTargetBranch "" (some cRepo) "" c6world.defEnv) ++ " failed" ∧
    (syncRepoFull "" false "" "R" cRepo c6world).events =
      [GitEvent.rebase c6world.currentBranch
        ("origin/" ++ getTargetBranch "" (some cRepo) "" c6world.defEnv),
       GitEvent.rebaseAbort] :=
  syncRepoFull_current_rebase_fails "" "" "R" cRepo c6world rfl rfl

/-- C9: when the lockfile fingerprint (size plus modification time, as
fileHash computes it) is identical before and after the rebase phase, the
result has lockfileChanged = false and adding it to the result list never
enlarges the --install step's selection. -/
theorem syncRepoFull_lockfile_unchanged (sb : String) (nrb : Bool) (wsd name : String)
    (repo : RepoDef) (g : GitWorld)
    (h : fileHash g.lockStatBefore = fileHash g.lockStatAfter) :
    (syncRepoFull sb nrb wsd name repo g).result.lockfileChanged = false ∧
    ∀ (results : List repoSyncResult) (pkgE : String → Bool),
      installTargets ((syncRepoFull sb nrb wsd name repo g).result :: results) pkgE =
        installTargets results pkgE := by
  have hl : (syncRepoFull sb nrb wsd name repo g).result.lockfileChanged = false := by
    unfold syncRepoFull
    split
    · rfl
    · split
      · split
        · rfl
        · rfl
      · split
        · show (fileHash g.lockStatBefore != fileHash g.lockStatAfter) = false
          rw [h]
          simp
        · rfl
  refine ⟨hl, ?_⟩
  intro results pkgE
  unfold installTargets
  rw [List.filter_cons, hl]
  simp

/-- C9 witness: identical lockfile stats at concrete inputs, and the install
selection unchanged by this repo's result. -/
theorem syncRepoFull_lockfile_unchanged_witness :
    (syncRepoFull "" false "" "R" cRepo cWorldBase).result.lockfileChanged = false ∧
    installTargets [(syncRepoFull "" false "" "R" cRepo cWorldBase).result]
        (fun _ => true) =
      installTargets [] (fun _ => true) :=
  ⟨(syncRepoFull_lockfile_unchanged "" false "" "R" cRepo cWorldBase rfl).1,
   (syncRepoFull_lockfile_unchanged "" false "" "R" cRepo cWorldBase rfl).2 []
     (fun _ => true)⟩

end SparkCLI
